import Mathlib

/-!
Verification of the flat-file persistence layer of the HRT-Journey-Tracker-Suite
repository, shallowly embedded in Lean 4.

Value universe. Following the repository's data model (spec §3: a Record is a
mapping from field name to scalar or list-of-scalar value), a stored value is a
scalar (JSON null / bool / integer / string) or a list of scalars, and a file
entry is either such a value or a record (string-keyed mapping). JSON
(de)serialization by Python's `json` module is treated as a faithful codec:
a file state is either absent, holds a JSON document (as a `JValue` list /
value), or holds bytes that are not valid JSON. Python `str.strip` is modelled
by `pyStrip` and `str.lower` by `lowerStr` (ASCII-faithful).
-/

inductive Scalar where
  | null
  | bool (b : Bool)
  | int (n : Int)
  | str (s : String)
  deriving DecidableEq, Repr

/-- A field value of a record: a scalar or a list of scalars. -/
inductive JField where
  | scalar (s : Scalar)
  | list (xs : List Scalar)
  deriving DecidableEq, Repr

/-- A JSON document entry: a record (Python dict with string keys, in insertion
order) or a bare value. -/
inductive JValue where
  | val (f : JField)
  | dict (kvs : List (String × JField))
  deriving DecidableEq, Repr

/-- Python truthiness of a scalar. -/
def Scalar.truthy : Scalar → Bool
  | .null => false
  | .bool b => b
  | .int n => n != 0
  | .str s => s != ""

/-- Python truthiness of a field value. -/
def JField.truthy : JField → Bool
  | .scalar s => s.truthy
  | .list xs => !xs.isEmpty

/-- Python `d.get(k)`: `none` models Python `None` for an absent key. -/
def pyGet (kvs : List (String × JField)) (k : String) : Option JField :=
  match kvs with
  | [] => none
  | (k0, v0) :: rest => if k0 == k then some v0 else pyGet rest k

/-- Python `d[k] = v`: replace the value in place if the key exists, keeping
its position, else append the key at the end (insertion order). -/
def pySet (kvs : List (String × JField)) (k : String) (v : JField) :
    List (String × JField) :=
  match kvs with
  | [] => [(k, v)]
  | (k0, v0) :: rest =>
    if k0 == k then (k0, v) :: rest else (k0, v0) :: pySet rest k v

/-- Truthiness of `d.get(k)` (Python `bool(d.get(k))`, `None` being falsy). -/
def truthyKey (kvs : List (String × JField)) (k : String) : Bool :=
  match pyGet kvs k with
  | none => false
  | some v => v.truthy

/-- An ASCII whitespace character, as stripped by Python `str.strip()`. -/
def isSpaceChar (c : Char) : Bool :=
  c == ' ' || c == '\t' || c == '\n' || c == '\r' || c == '\x0b' || c == '\x0c'

/-- Python `str.strip()` (ASCII whitespace): drop whitespace from both
ends. -/
def pyStrip (s : String) : String :=
  String.mk (((s.data.dropWhile isSpaceChar).reverse.dropWhile isSpaceChar).reverse)

/-- On-disk content of a store file: a parsed JSON document (an array of
entries, a bare scalar, or an object), or bytes that are not valid JSON. Every
JSON document within the value universe has exactly one representation. -/
inductive FileContent where
  | jsonList (xs : List JValue)
  | jsonScalar (s : Scalar)
  | jsonDict (kvs : List (String × JField))
  | invalid (bytes : String)
  deriving DecidableEq, Repr

/-- A store file: absent, or present with some content. -/
abbrev FileState := Option FileContent

/-- Python exceptions that the modelled code can raise. -/
inductive PyErr where
  | valueError
  | attrError
  | typeError
  deriving DecidableEq, Repr

deriving instance DecidableEq for Except

namespace Journey

/-- The line `e["id"] = str(uuid.uuid4())` of `load_data`
(src/Journey/storage.py), guarded by `not e.get("id")`; the uuid supply is the
function `uuids`, advanced only when consumed. -/
def upgradeId (uuids : Nat → String) (n : Nat) (kvs : List (String × JField)) :
    List (String × JField) × Bool × Nat :=
  if truthyKey kvs "id" then (kvs, false, n)
  else (pySet kvs "id" (.scalar (.str (uuids n))), true, n + 1)

/-- The line `e["created_at"] = e.get("updated_at") or now` (guarded by
`not e.get("created_at")`). -/
def upgradeCreated (now : String) (kvs : List (String × JField)) :
    List (String × JField) × Bool :=
  if truthyKey kvs "created_at" then (kvs, false)
  else
    (pySet kvs "created_at"
      (match pyGet kvs "updated_at" with
       | some v => if v.truthy then v else .scalar (.str now)
       | none => .scalar (.str now)), true)

/-- The line `e["updated_at"] = now` (guarded by `not e.get("updated_at")`). -/
def upgradeUpdated (now : String) (kvs : List (String × JField)) :
    List (String × JField) × Bool :=
  if truthyKey kvs "updated_at" then (kvs, false)
  else (pySet kvs "updated_at" (.scalar (.str now)), true)

/-- One iteration of the light schema-upgrade loop of `load_data`: a dict
entry passes through the three guarded assignments in program order; non-dict
entries are untouched. Returns the upgraded entry, whether it changed, and the
next uuid index. -/
def upgradeEntry (now : String) (uuids : Nat → String) (n : Nat) (e : JValue) :
    JValue × Bool × Nat :=
  match e with
  | .val f => (.val f, false, n)
  | .dict kvs =>
    let r1 := upgradeId uuids n kvs
    let r2 := upgradeCreated now r1.1
    let r3 := upgradeUpdated now r2.1
    (.dict r3.1, r1.2.1 || r2.2 || r3.2, r1.2.2)

/-- The schema-upgrade loop of `load_data` over the whole list, threading the
uuid supply index and the `changed` flag. -/
def upgradeList (now : String) (uuids : Nat → String) (n : Nat) :
    List JValue → List JValue × Bool × Nat
  | [] => ([], false, n)
  | e :: rest =>
    let r1 := upgradeEntry now uuids n e
    let r2 := upgradeList now uuids r1.2.2 rest
    (r1.1 :: r2.1, r1.2.1 || r2.2.1, r2.2.2)

/-- Model of `_write_data` (src/Journey/storage.py): an atomic whole-file
rewrite with the list serialized as a JSON array. The lock file and the
temp-file dance have no observable effect in this single-threaded model beyond
the file ending up with exactly this content. -/
def write_data (data : List JValue) : FileState :=
  some (.jsonList data)

/-- Model of `load_data` (src/Journey/storage.py): absent file gives `[]`;
unparseable file gives `[]`; a parsed non-list document gives `[]`; a parsed
list is schema-upgraded, and if anything changed the file is rewritten with the
upgraded list during the load itself. Returns the entries and the resulting
file state. -/
def load_data (now : String) (uuids : Nat → String) (fs : FileState) :
    List JValue × FileState :=
  match fs with
  | none => ([], none)
  | some (.invalid b) => ([], some (.invalid b))
  | some (.jsonScalar s) => ([], some (.jsonScalar s))
  | some (.jsonDict kvs) => ([], some (.jsonDict kvs))
  | some (.jsonList xs) =>
    let r := upgradeList now uuids 0 xs
    (r.1, if r.2.1 then write_data r.1 else some (.jsonList xs))

/-- Model of `save_entry` (src/Journey/storage.py): load, append (no dedupe),
rewrite. -/
def save_entry (entry : JValue) (now : String) (uuids : Nat → String)
    (fs : FileState) : FileState :=
  write_data ((load_data now uuids fs).1 ++ [entry])

/-- The key computation of `upsert_entry`: `(entry.get("date") or "").strip()`,
raising `AttributeError` when the looked-up value is truthy but not a string,
then `ValueError` when the stripped key is empty. -/
def upsertIso (entry : List (String × JField)) : Except PyErr String :=
  match pyGet entry "date" with
  | some (.scalar (.str s)) =>
    if pyStrip s = "" then .error .valueError else .ok (pyStrip s)
  | some v => if v.truthy then .error .attrError else .error .valueError
  | none => .error .valueError

/-- The linear scan of `upsert_entry`: index of the first entry whose `date`
field equals `iso`; `existing.get("date")` raises `AttributeError` on a
non-dict entry encountered before any match. -/
def findDateIdx (iso : String) : List JValue → Nat → Except PyErr (Option Nat)
  | [], _ => .ok none
  | .dict kvs :: rest, i =>
    if pyGet kvs "date" == some (.scalar (.str iso)) then .ok (some i)
    else findDateIdx iso rest (i + 1)
  | .val _ :: _, _ => .error .attrError

/-- Model of `upsert_entry` (src/Journey/storage.py): insert or replace by
`entry["date"]`; `True` means updated, `False` means inserted. -/
def upsert_entry (entry : List (String × JField)) (now : String)
    (uuids : Nat → String) (fs : FileState) : Except PyErr (Bool × FileState) :=
  match upsertIso entry with
  | .error e => .error e
  | .ok iso =>
    let data := (load_data now uuids fs).1
    match findDateIdx iso data 0 with
    | .error e => .error e
    | .ok (some i) => .ok (true, write_data (data.set i (.dict entry)))
    | .ok none => .ok (false, write_data (data ++ [.dict entry]))

/-- The list comprehension of `delete_entry_by_date`: all entries whose `date`
differs from `iso`; raises `AttributeError` if any entry is not a dict. -/
def keepOtherDates (iso : String) : List JValue → Except PyErr (List JValue)
  | [] => .ok []
  | .dict kvs :: rest =>
    match keepOtherDates iso rest with
    | .error e => .error e
    | .ok r =>
      if pyGet kvs "date" == some (.scalar (.str iso)) then .ok r
      else .ok (.dict kvs :: r)
  | .val _ :: _ => .error .attrError

/-- Model of `delete_entry_by_date` (src/Journey/storage.py): filter out the
target date; if nothing was removed return `False` without writing, else write
the filtered list and return `True`. -/
def delete_entry_by_date (iso : String) (now : String) (uuids : Nat → String)
    (fs : FileState) : Except PyErr (Bool × FileState) :=
  let data := (load_data now uuids fs).1
  match keepOtherDates iso data with
  | .error e => .error e
  | .ok newData =>
    if newData.length = data.length then .ok (false, (load_data now uuids fs).2)
    else .ok (true, write_data newData)

/-- An entry the schema upgrade leaves untouched and, where the scans require
it, a dict: a record with truthy `id`, `created_at` and `updated_at`. -/
def entryOk : JValue → Bool
  | .val _ => false
  | .dict kvs =>
    truthyKey kvs "id" && truthyKey kvs "created_at" && truthyKey kvs "updated_at"

/-- An entry that round-trips through the schema upgrade unchanged: a bare
value, or a schema-complete record. -/
def entryNoUpgrade : JValue → Bool
  | .val _ => true
  | e => entryOk e

/-- An entry whose `date` field equals `iso` (the match test of the scans). -/
def dateMatch (iso : String) : JValue → Bool
  | .dict kvs => pyGet kvs "date" == some (.scalar (.str iso))
  | .val _ => false

/-- Replace the first entry matching `iso` by `x` (the effect of
`data[i] = entry` at the index found by the scan). -/
def replaceFirst (iso : String) (x : JValue) : List JValue → List JValue
  | [] => []
  | e :: rest =>
    if dateMatch iso e then x :: rest else e :: replaceFirst iso x rest

/-- The natural-key uniqueness invariant: at most one record per `date`
value. -/
def uniqueDates (xs : List JValue) : Prop :=
  ∀ iso, xs.countP (dateMatch iso) ≤ 1

end Journey

/-- Stable insertion step: place `a` after every element strictly below it
(`lt b a`), hence before the first element that is not. -/
def insertLt (lt : α → α → Bool) (a : α) : List α → List α
  | [] => [a]
  | b :: bs => if lt b a then b :: insertLt lt a bs else a :: b :: bs

/-- Stable insertion sort by a strict comparison. For a total strict key order
this computes the same list as Python's stable `sorted`/`list.sort`: elements
with equal keys keep their original relative order. -/
def insSort (lt : α → α → Bool) : List α → List α
  | [] => []
  | a :: as => insertLt lt a (insSort lt as)

/-- Python string `<`: lexicographic comparison of the character sequences by
code point (a strict prefix is smaller). -/
def lexLt : List Char → List Char → Bool
  | _, [] => false
  | [], _ :: _ => true
  | a :: as, b :: bs =>
    decide (a.toNat < b.toNat) || (a.toNat == b.toNat && lexLt as bs)

/-- Python `a < b` on strings. -/
def strLtB (a b : String) : Bool := lexLt a.data b.data

/-- Occurrence of `q` at the start of `hay` (character lists). -/
def hasPre : List Char → List Char → Bool
  | [], _ => true
  | _ :: _, [] => false
  | a :: as, b :: bs => a == b && hasPre as bs

/-- Python `q in hay` on strings: `q` occurs contiguously somewhere in `hay`
(the empty string occurs in everything). -/
def hasSubList (q : List Char) : List Char → Bool
  | [] => hasPre q []
  | c :: rest => hasPre q (c :: rest) || hasSubList q rest

/-- Python substring test `q in hay`. -/
def hasSubStr (q hay : String) : Bool :=
  hasSubList q.toList hay.toList

/-- Python `str.lower` (ASCII): lowercase every character. This is
`String.toLower` written so that its character list is definitionally a
`List.map`. -/
def lowerStr (s : String) : String :=
  String.mk (s.data.map Char.toLower)


namespace CycleT

/-- The `CycleEntry` dataclass of src/Cycle Tracker/C-T.py. Field values are
kept at the JSON level (`JField`), since the code never constrains their types
at runtime. -/
structure CycleEntry where
  start_date : JField
  end_date : JField
  intensity : JField
  notes : JField
  tags : JField
  deriving DecidableEq, Repr

/-- Python `dataclasses.asdict` on a `CycleEntry`: the five fields in
declaration order. -/
def asdict (e : CycleEntry) : List (String × JField) :=
  [("start_date", e.start_date), ("end_date", e.end_date),
   ("intensity", e.intensity), ("notes", e.notes), ("tags", e.tags)]

/-- One iteration of the `CycleStorage.load` parsing loop on a dict item:
`none` models the `KeyError` path (missing `start_date`/`end_date`), which the
code catches and skips. `intensity` defaults to `"none"`, `notes` to `""`, and
`tags` is copied when it is a list and replaced by `[]` otherwise. -/
def parseItem (kvs : List (String × JField)) : Option CycleEntry :=
  match pyGet kvs "start_date", pyGet kvs "end_date" with
  | some sd, some ed =>
    some
      { start_date := sd
        end_date := ed
        intensity := (pyGet kvs "intensity").getD (.scalar (.str "none"))
        notes := (pyGet kvs "notes").getD (.scalar (.str ""))
        tags :=
          match pyGet kvs "tags" with
          | some (.list xs) => .list xs
          | _ => .list [] }
  | _, _ => none

/-- The `CycleStorage.load` item loop: dict items parse or are skipped on
`KeyError`; subscripting a non-dict item (`item["start_date"]`) raises
`TypeError`, which the code does not catch. -/
def parseItems : List JValue → Except PyErr (List CycleEntry)
  | [] => .ok []
  | .dict kvs :: rest =>
    match parseItems rest with
    | .error e => .error e
    | .ok r =>
      match parseItem kvs with
      | some e => .ok (e :: r)
      | none => .ok r
  | .val _ :: _ => .error .typeError

/-- Strict comparison used by `entries.sort(key=lambda e: e.start_date)`.
String dates compare lexicographically; on mixed non-string keys Python's sort
would raise, a path no claim exercises and on which this comparison is
inert. -/
def cycLt (a b : CycleEntry) : Bool :=
  match a.start_date, b.start_date with
  | .scalar (.str x), .scalar (.str y) => strLtB x y
  | _, _ => false

/-- Model of `CycleStorage.load` (src/Cycle Tracker/C-T.py): absent or
unparseable file gives `[]`; a parsed list is item-parsed then sorted by
`start_date`; iterating a non-list document either yields nothing (empty
string, empty object) or raises `TypeError` (numbers, booleans, null,
non-empty strings and objects, whose iteration elements cannot be
subscripted by a string key). -/
def load (fs : FileState) : Except PyErr (List CycleEntry) :=
  match fs with
  | none => .ok []
  | some (.invalid _) => .ok []
  | some (.jsonList xs) =>
    match parseItems xs with
    | .error e => .error e
    | .ok es => .ok (insSort cycLt es)
  | some (.jsonScalar (.str s)) => if s = "" then .ok [] else .error .typeError
  | some (.jsonScalar _) => .error .typeError
  | some (.jsonDict kvs) => if kvs.isEmpty then .ok [] else .error .typeError

/-- Model of `CycleStorage.save`: direct whole-file overwrite with the entries
as a JSON array of dicts. -/
def save (entries : List CycleEntry) : FileState :=
  some (.jsonList (entries.map (fun e => .dict (asdict e))))

end CycleT

namespace RM

/-- Python `str()` of a scalar. -/
def strOfScalar : Scalar → String
  | .null => "None"
  | .bool b => if b then "True" else "False"
  | .int n => toString n
  | .str s => s

/-- Python `repr()` of a scalar, as used when rendering list elements.
String escaping is not modelled; no claim exercises it. -/
def reprOfScalar : Scalar → String
  | .str s => "'" ++ s ++ "'"
  | s => strOfScalar s

/-- Python `str()` of a field value. -/
def strOfJField : JField → String
  | .scalar s => strOfScalar s
  | .list xs => "[" ++ String.intercalate ", " (xs.map reprOfScalar) ++ "]"

/-- One item of the `LinkStorage.load` loop (src/Resource manager/r-m.py):
non-dict items are skipped, and a dict item is kept only when its stripped
`title` and `url` renderings are both non-empty. -/
def parseLink : JValue → Option (String × String)
  | .val _ => none
  | .dict kvs =>
    let t := pyStrip (strOfJField ((pyGet kvs "title").getD (.scalar (.str ""))))
    let u := pyStrip (strOfJField ((pyGet kvs "url").getD (.scalar (.str ""))))
    if t ≠ "" && u ≠ "" then some (t, u) else none

/-- Model of `LinkStorage.load`: absent file gives `[]`; any exception during
read/parse gives `[]` (the code catches `Exception`); a parsed non-list gives
`[]`; a parsed list is filtered to well-formed links. -/
def load (fs : FileState) : List (String × String) :=
  match fs with
  | none => []
  | some (.invalid _) => []
  | some (.jsonScalar _) => []
  | some (.jsonDict _) => []
  | some (.jsonList xs) => xs.filterMap parseLink

/-- Model of `LinkStorage.save`: direct whole-file overwrite of the in-memory
list as a JSON array of `{"title", "url"}` dicts. -/
def saveFile (data : List (String × String)) : FileState :=
  some (.jsonList (data.map
    (fun p => .dict [("title", .scalar (.str p.1)), ("url", .scalar (.str p.2))])))

/-- The de-dupe scan of `LinkStorage.add_link`: retitle the first entry whose
stripped url equals `u` (keeping that entry's stored url), else append the new
pair at the end. -/
def updateOrAppend (t u : String) : List (String × String) → List (String × String)
  | [] => [(t, u)]
  | (t0, u0) :: rest =>
    if pyStrip u0 == u then (t, u0) :: rest
    else (t0, u0) :: updateOrAppend t u rest

/-- Model of `LinkStorage.add_link`: strip both arguments; if either is empty
do nothing (no save); otherwise update-by-url or append, then save. Returns
the new in-memory list and the new file state. -/
def add_link (data : List (String × String)) (fs : FileState)
    (title url : String) : List (String × String) × FileState :=
  let t := pyStrip title
  let u := pyStrip url
  if t == "" || u == "" then (data, fs)
  else
    let data2 := updateOrAppend t u data
    (data2, saveFile data2)

end RM


namespace Tracker

/-- A resource record as normalized by `ResourcesPage._load_resources`
(src/HRTjourneytracker/tracker.py). -/
structure Resource where
  id : String
  title : String
  url : String
  category : String
  tags : String
  notes : String
  pinned : Bool
  deriving DecidableEq, Repr

/-- The haystack of `ResourcesPage._matches_filter`: the five text fields
joined with single spaces (`" ".join([...])`). -/
def joined (r : Resource) : String :=
  r.title ++ " " ++ r.url ++ " " ++ r.tags ++ " " ++ r.notes ++ " " ++ r.category

/-- Model of `ResourcesPage._matches_filter`: category gate, empty query keeps
everything, and otherwise the stripped lowercased query must occur in the
lowercased space-joined haystack. -/
def matches_filter (search cat : String) (r : Resource) : Bool :=
  let q := lowerStr (pyStrip search)
  if cat != "All categories" && r.category != cat then false
  else if q == "" then true
  else hasSubStr q (lowerStr (joined r))

/-- The sort key of `ResourcesPage._sorted_resources`:
`(not pinned, title.lower())`. -/
def resKey (r : Resource) : Bool × String :=
  (!r.pinned, lowerStr r.title)

/-- Strict lexicographic comparison on `(Bool, String)` keys, with
`False < True` as in Python. -/
def keyLt (a b : Bool × String) : Bool :=
  (!a.1 && b.1) || (a.1 == b.1 && strLtB a.2 b.2)

/-- Strict comparison between resources used by the stable sort. -/
def resLt (a b : Resource) : Bool :=
  keyLt (resKey a) (resKey b)

/-- Model of `ResourcesPage._sorted_resources`: stable sort, pinned first,
then by lowercased title. -/
def sorted_resources (items : List Resource) : List Resource :=
  insSort resLt items

/-- Model of the list produced by `ResourcesPage._rebuild_list`: the resources
passing the filter, in sorted display order. -/
def rebuild_list (rs : List Resource) (search cat : String) : List Resource :=
  sorted_resources (rs.filter (matches_filter search cat))

end Tracker

namespace JJ

/-- The `JournalEntry` dataclass of src/Journey Journal/JJ.py. -/
structure JournalEntry where
  entry_date : String
  mood : String
  symptoms : List String
  emotional_shifts : String
  pain_discomfort : String
  libido_arousal : String
  notes : String
  deriving DecidableEq, Repr

/-- The enumeration loop of `_find_entry_index_by_date`, carrying the running
index. -/
def findIdxFrom (d : String) : List JournalEntry → Nat → Option Nat
  | [], _ => none
  | e :: rest, i => if e.entry_date == d then some i else findIdxFrom d rest (i + 1)

/-- Model of `_find_entry_index_by_date`: index of the first entry with the
given date, if any (the code returns `-1` for absence, checked by callers). -/
def find_entry_index_by_date (entries : List JournalEntry) (d : String) :
    Option Nat :=
  findIdxFrom d entries 0

/-- Model of `_sort_entries`: stable sort by `entry_date`, descending
(`reverse=True`). -/
def sort_entries (entries : List JournalEntry) : List JournalEntry :=
  insSort (fun a b => strLtB b.entry_date a.entry_date) entries

/-- The store-mutating core of `add_entry` (src/Journey Journal/JJ.py):
validation aborts when both mood and (pre-stripped) notes are empty; an
existing entry for the same date is replaced only when the user confirms,
else nothing happens; otherwise the new entry is appended; any mutation is
followed by the descending re-sort. -/
def add_entry (entries : List JournalEntry) (e : JournalEntry)
    (confirm : Bool) : List JournalEntry :=
  if e.mood == "" && e.notes == "" then entries
  else
    match find_entry_index_by_date entries e.entry_date with
    | some i => if confirm then sort_entries (entries.set i e) else entries
    | none => sort_entries (entries ++ [e])

/-- Replace the first entry with date `d` by `x` (the effect of
`self.entries[existing_idx] = entry`). -/
def replaceFirstJJ (d : String) (x : JournalEntry) :
    List JournalEntry → List JournalEntry
  | [] => []
  | e :: rest =>
    if e.entry_date == d then x :: rest else e :: replaceFirstJJ d x rest

/-- Natural-key uniqueness for the journal: at most one entry per date. -/
def uniqueJJ (entries : List JournalEntry) : Prop :=
  ∀ d, entries.countP (fun e => e.entry_date == d) ≤ 1

end JJ

namespace Voice

/-- Model of `np.nan_to_num` on the input samples: non-finite samples (`none`)
become `0`. Finite floating-point samples are modelled as rationals. -/
def sanitize (audio : List (Option ℚ)) : List ℚ :=
  audio.map (fun x => x.getD 0)

/-- Zero-pad a frame to the hop size, as the loop does for the final short
frame. -/
def padTo (h : Nat) (f : List ℚ) : List ℚ :=
  f ++ List.replicate (h - f.length) 0

/-- Fuelled chunking of the sample list into hop-sized frames; the fuel is the
sample count, enough for any positive hop. -/
def framesGo (h : Nat) : Nat → List ℚ → List (List ℚ)
  | 0, _ => []
  | _ + 1, [] => []
  | fuel + 1, x :: xs => padTo h ((x :: xs).take h) :: framesGo h fuel ((x :: xs).drop h)

/-- The frames visited by `for i in range(0, len(audio), hop_size)`, each
zero-padded to the hop size. -/
def frames (h : Nat) (xs : List ℚ) : List (List ℚ) :=
  framesGo h xs.length xs

/-- Model of `np.max(np.abs(frame))` (frames are non-empty, so the `0` seed is
inert). -/
def maxAbs (f : List ℚ) : ℚ :=
  f.foldr (fun x m => max |x| m) 0

/-- The frame loop of `estimate_pitch_track`: frames that are basically
silence are skipped without consulting the pitch object; otherwise the
stateful pitch object (uninterpreted, state type `σ`) is stepped and its
output collected. `none` models a non-finite float output. -/
def runTrack {σ : Type} (step : σ → List ℚ → σ × Option ℚ) :
    σ → List (List ℚ) → List (Option ℚ)
  | _, [] => []
  | s, f :: fsr =>
    if maxAbs f < 1 / 1000 then runTrack step s fsr
    else (step s f).2 :: runTrack step (step s f).1 fsr

/-- Model of `estimate_pitch_track` (src/Voice-Trainer/resources/analysis.py):
empty audio gives an empty track; otherwise the raw pitch outputs are filtered
to the finite ones, then to those strictly between 50 and 500 Hz. The sample
rate only parameterizes the uninterpreted pitch object. -/
def estimate_pitch_track {σ : Type} (step : σ → List ℚ → σ × Option ℚ)
    (s0 : σ) (audio : List (Option ℚ)) (sampleRate : Nat) (hop : Nat) :
    List ℚ :=
  if audio.isEmpty then []
  else
    (((runTrack step s0 (frames hop (sanitize audio))).filterMap id).filter
      (fun p => decide (50 < p) && decide (p < 500)))

/-- Model of `np.median`: sort ascending; the middle element for odd length,
the mean of the two middle elements for even length. -/
def npMedian (ps : List ℚ) : ℚ :=
  let s := insSort (fun a b => decide (a < b)) ps
  let n := s.length
  if n % 2 = 1 then s.getD (n / 2) 0
  else (s.getD (n / 2 - 1) 0 + s.getD (n / 2) 0) / 2

/-- Model of `estimate_average_pitch`: `None` for an empty track, else the
median of the track (hop size fixed at the default 512). -/
def estimate_average_pitch {σ : Type} (step : σ → List ℚ → σ × Option ℚ)
    (s0 : σ) (audio : List (Option ℚ)) (sampleRate : Nat) : Option ℚ :=
  let ps := estimate_pitch_track step s0 audio sampleRate 512
  if ps.isEmpty then none else some (npMedian ps)

end Voice

/-! Helper lemmas about the Python dict model. -/

theorem pyGet_pySet_same (kvs : List (String × JField)) (k : String) (v : JField) :
    pyGet (pySet kvs k v) k = some v := by
  induction kvs with
  | nil => simp [pySet, pyGet]
  | cons p rest ih =>
    obtain ⟨k0, v0⟩ := p
    by_cases h : k0 = k
    · subst h
      simp [pySet, pyGet]
    · simp [pySet, pyGet, h, ih]

theorem pyGet_pySet_diff (kvs : List (String × JField)) (k k2 : String)
    (v : JField) (h : k2 ≠ k) : pyGet (pySet kvs k v) k2 = pyGet kvs k2 := by
  induction kvs with
  | nil => simp [pySet, pyGet, Ne.symm h]
  | cons p rest ih =>
    obtain ⟨k0, v0⟩ := p
    by_cases h0 : k0 = k
    · subst h0
      simp [pySet, pyGet, Ne.symm h]
    · by_cases h2 : k0 = k2
      · subst h2
        simp [pySet, pyGet, h0]
      · simp [pySet, pyGet, h0, h2, ih]

theorem truthyKey_pySet_same (kvs : List (String × JField)) (k : String)
    (v : JField) : truthyKey (pySet kvs k v) k = v.truthy := by
  simp [truthyKey, pyGet_pySet_same]

theorem truthyKey_pySet_diff (kvs : List (String × JField)) (k k2 : String)
    (v : JField) (h : k2 ≠ k) : truthyKey (pySet kvs k v) k2 = truthyKey kvs k2 := by
  simp [truthyKey, pyGet_pySet_diff _ _ _ _ h]

namespace Journey

theorem upgradeEntry_dict (now : String) (uuids : Nat → String) (n : Nat)
    (kvs : List (String × JField)) :
    upgradeEntry now uuids n (.dict kvs) =
      (.dict (upgradeUpdated now (upgradeCreated now (upgradeId uuids n kvs).1).1).1,
       (upgradeId uuids n kvs).2.1 ||
         (upgradeCreated now (upgradeId uuids n kvs).1).2 ||
         (upgradeUpdated now (upgradeCreated now (upgradeId uuids n kvs).1).1).2,
       (upgradeId uuids n kvs).2.2) := rfl

theorem upgradeEntry_ok (now : String) (uuids : Nat → String) (n : Nat)
    (e : JValue) (h : entryNoUpgrade e = true) :
    upgradeEntry now uuids n e = (e, false, n) := by
  cases e with
  | val f => rfl
  | dict kvs =>
    simp only [entryNoUpgrade, entryOk, Bool.and_eq_true] at h
    rw [upgradeEntry_dict]
    simp [upgradeId, upgradeCreated, upgradeUpdated, h.1.1, h.1.2, h.2]

theorem upgradeList_ok (now : String) (uuids : Nat → String) (n : Nat)
    (xs : List JValue) (h : ∀ e ∈ xs, entryNoUpgrade e = true) :
    upgradeList now uuids n xs = (xs, false, n) := by
  induction xs generalizing n with
  | nil => rfl
  | cons e rest ih =>
    have he := h e (by simp)
    have hr : ∀ x ∈ rest, entryNoUpgrade x = true := fun x hx => h x (by simp [hx])
    simp [upgradeList, upgradeEntry_ok now uuids n e he, ih n hr]

theorem load_data_noop (now : String) (uuids : Nat → String) (xs : List JValue)
    (h : ∀ e ∈ xs, entryNoUpgrade e = true) :
    load_data now uuids (some (.jsonList xs)) = (xs, some (.jsonList xs)) := by
  simp [load_data, upgradeList_ok now uuids 0 xs h]

theorem upgradeId_id (uuids : Nat → String) (n : Nat)
    (kvs : List (String × JField)) (hu : ∀ m, uuids m ≠ "") :
    truthyKey (upgradeId uuids n kvs).1 "id" = true := by
  unfold upgradeId
  by_cases h : truthyKey kvs "id"
  · simp [h]
  · simp [h, truthyKey_pySet_same, JField.truthy, Scalar.truthy, hu n]

theorem upgradeId_pres (uuids : Nat → String) (n : Nat)
    (kvs : List (String × JField)) (k : String) (h : k ≠ "id") :
    truthyKey (upgradeId uuids n kvs).1 k = truthyKey kvs k := by
  unfold upgradeId
  by_cases hc : truthyKey kvs "id"
  · simp [hc]
  · simp [hc, truthyKey_pySet_diff _ _ _ _ h]

theorem upgradeCreated_created (now : String) (kvs : List (String × JField))
    (hnow : now ≠ "") :
    truthyKey (upgradeCreated now kvs).1 "created_at" = true := by
  by_cases h : truthyKey kvs "created_at"
  · simp [upgradeCreated, h]
  · simp only [upgradeCreated, if_neg h, truthyKey_pySet_same]
    cases hg : pyGet kvs "updated_at" with
    | none => simp [JField.truthy, Scalar.truthy, hnow]
    | some v =>
      simp only []
      by_cases hv : v.truthy
      · rw [if_pos hv]
        exact hv
      · rw [if_neg hv]
        simp [JField.truthy, Scalar.truthy, hnow]

theorem upgradeCreated_pres (now : String) (kvs : List (String × JField))
    (k : String) (h : k ≠ "created_at") :
    truthyKey (upgradeCreated now kvs).1 k = truthyKey kvs k := by
  unfold upgradeCreated
  by_cases hc : truthyKey kvs "created_at"
  · simp [hc]
  · simp [hc, truthyKey_pySet_diff _ _ _ _ h]

theorem upgradeUpdated_updated (now : String) (kvs : List (String × JField))
    (hnow : now ≠ "") :
    truthyKey (upgradeUpdated now kvs).1 "updated_at" = true := by
  unfold upgradeUpdated
  by_cases h : truthyKey kvs "updated_at"
  · simp [h]
  · simp [h, truthyKey_pySet_same, JField.truthy, Scalar.truthy, hnow]

theorem upgradeUpdated_pres (now : String) (kvs : List (String × JField))
    (k : String) (h : k ≠ "updated_at") :
    truthyKey (upgradeUpdated now kvs).1 k = truthyKey kvs k := by
  unfold upgradeUpdated
  by_cases hc : truthyKey kvs "updated_at"
  · simp [hc]
  · simp [hc, truthyKey_pySet_diff _ _ _ _ h]

theorem upgradeEntry_complete (now : String) (uuids : Nat → String) (n : Nat)
    (e : JValue) (hnow : now ≠ "") (hu : ∀ m, uuids m ≠ "")
    (kvs1 : List (String × JField))
    (h : (upgradeEntry now uuids n e).1 = .dict kvs1) :
    truthyKey kvs1 "id" = true ∧ truthyKey kvs1 "created_at" = true ∧
      truthyKey kvs1 "updated_at" = true := by
  cases e with
  | val f => simp [upgradeEntry] at h
  | dict kvs =>
    rw [upgradeEntry_dict] at h
    have hk : kvs1 =
        (upgradeUpdated now (upgradeCreated now (upgradeId uuids n kvs).1).1).1 := by
      exact (JValue.dict.injEq _ _ ▸ h).symm
    subst hk
    refine ⟨?_, ?_, ?_⟩
    · rw [upgradeUpdated_pres _ _ _ (by decide),
        upgradeCreated_pres _ _ _ (by decide)]
      exact upgradeId_id uuids n kvs hu
    · rw [upgradeUpdated_pres _ _ _ (by decide)]
      exact upgradeCreated_created now _ hnow
    · exact upgradeUpdated_updated now _ hnow

theorem upgradeList_complete (now : String) (uuids : Nat → String)
    (hnow : now ≠ "") (hu : ∀ m, uuids m ≠ "") :
    ∀ (xs : List JValue) (n : Nat), ∀ e ∈ (upgradeList now uuids n xs).1,
      ∀ kvs, e = .dict kvs →
        truthyKey kvs "id" = true ∧ truthyKey kvs "created_at" = true ∧
          truthyKey kvs "updated_at" = true := by
  intro xs
  induction xs with
  | nil => intro n e he; simp [upgradeList] at he
  | cons x rest ih =>
    intro n e he kvs hkvs
    simp only [upgradeList, List.mem_cons] at he
    rcases he with he | he
    · subst hkvs
      exact upgradeEntry_complete now uuids n x hnow hu kvs he.symm
    · exact ih _ e he kvs hkvs

end Journey

namespace Journey

theorem dateMatch_dict (iso : String) (kvs : List (String × JField)) :
    dateMatch iso (.dict kvs) = (pyGet kvs "date" == some (.scalar (.str iso))) := rfl

theorem dateMatch_exists (iso : String) (e : JValue) (h : dateMatch iso e = true) :
    ∃ k, e = .dict k ∧ pyGet k "date" = some (.scalar (.str iso)) := by
  cases e with
  | val f => simp [dateMatch] at h
  | dict k =>
    refine ⟨k, rfl, ?_⟩
    simpa [dateMatch] using h

theorem dateMatch_congr (iso iso2 : String) (k : List (String × JField))
    (h : pyGet k "date" = some (.scalar (.str iso))) :
    dateMatch iso2 (.dict k) = decide (iso = iso2) := by
  by_cases he : iso = iso2
  · subst he
    simp [dateMatch, h]
  · simp [dateMatch, h, he]

theorem findDateIdx_append (iso : String) (pre post : List JValue)
    (kvs0 : List (String × JField))
    (hpre : ∀ e ∈ pre, (∃ k, e = .dict k) ∧ dateMatch iso e = false)
    (hold : dateMatch iso (.dict kvs0) = true) :
    ∀ n, findDateIdx iso (pre ++ .dict kvs0 :: post) n = .ok (some (n + pre.length)) := by
  induction pre with
  | nil =>
    intro n
    rw [dateMatch_dict] at hold
    simp [findDateIdx, hold]
  | cons e rest ih =>
    intro n
    obtain ⟨⟨k, hk⟩, hnm⟩ := hpre e (by simp)
    subst hk
    rw [dateMatch_dict] at hnm
    have ihr := ih (fun x hx => hpre x (by simp [hx])) (n + 1)
    have hcons : findDateIdx iso ((JValue.dict k :: rest) ++ JValue.dict kvs0 :: post) n
        = findDateIdx iso (rest ++ JValue.dict kvs0 :: post) (n + 1) := by
      simp [findDateIdx, hnm]
    rw [hcons, ihr]
    simp only [List.length_cons, Except.ok.injEq, Option.some.injEq]
    omega

theorem set_append_len {α : Type} (pre post : List α) (old x : α) :
    (pre ++ old :: post).set pre.length x = pre ++ x :: post := by
  induction pre with
  | nil => rfl
  | cons a rest ih => simp [List.set, ih]

theorem findDateIdx_total (iso : String) (xs : List JValue)
    (h : ∀ e ∈ xs, ∃ k, e = .dict k) :
    ∀ n, (∃ i, findDateIdx iso xs n = .ok (some i)) ∨
      (findDateIdx iso xs n = .ok none ∧ ∀ e ∈ xs, dateMatch iso e = false) := by
  induction xs with
  | nil => intro n; exact .inr ⟨rfl, by simp⟩
  | cons e rest ih =>
    intro n
    obtain ⟨k, hk⟩ := h e (by simp)
    subst hk
    by_cases hm : pyGet k "date" == some (JField.scalar (.str iso))
    · exact .inl ⟨n, by simp [findDateIdx, hm]⟩
    · have step : findDateIdx iso (JValue.dict k :: rest) n = findDateIdx iso rest (n + 1) := by
        simp [findDateIdx, hm]
      rcases ih (fun x hx => h x (by simp [hx])) (n + 1) with ⟨i, hi⟩ | ⟨hn, hall⟩
      · exact .inl ⟨i, by rw [step]; exact hi⟩
      · refine .inr ⟨by rw [step]; exact hn, ?_⟩
        intro x hx
        rcases List.mem_cons.mp hx with hx | hx
        · subst hx
          simpa [dateMatch_dict] using hm
        · exact hall x hx

theorem findDateIdx_set_replaceFirst (iso : String) (x : JValue) (xs : List JValue) :
    ∀ n m, findDateIdx iso xs n = .ok (some m) →
      n ≤ m ∧ xs.set (m - n) x = replaceFirst iso x xs := by
  induction xs with
  | nil => intro n m h; simp [findDateIdx] at h
  | cons e rest ih =>
    intro n m h
    cases e with
    | val f => simp [findDateIdx] at h
    | dict kvs =>
      by_cases hm : pyGet kvs "date" == some (JField.scalar (.str iso))
      · rw [findDateIdx, if_pos hm] at h
        have hmn : n = m := by simpa using h
        subst hmn
        refine ⟨le_refl n, ?_⟩
        simp [List.set, replaceFirst, dateMatch_dict, hm]
      · rw [findDateIdx, if_neg hm] at h
        obtain ⟨hle, hset⟩ := ih (n + 1) m h
        refine ⟨by omega, ?_⟩
        have hmn : m - n = (m - (n + 1)) + 1 := by omega
        rw [hmn]
        simp only [List.set, hset]
        rw [replaceFirst, if_neg (by simp [dateMatch_dict, hm])]

theorem countP_replaceFirst (iso : String) (entry : List (String × JField))
    (hdate : pyGet entry "date" = some (.scalar (.str iso))) (xs : List JValue)
    (iso2 : String) :
    (replaceFirst iso (.dict entry) xs).countP (dateMatch iso2) =
      xs.countP (dateMatch iso2) := by
  induction xs with
  | nil => rfl
  | cons e rest ih =>
    by_cases hm : dateMatch iso e = true
    · obtain ⟨k, hk, hkd⟩ := dateMatch_exists iso e hm
      subst hk
      rw [replaceFirst, if_pos hm]
      rw [List.countP_cons, List.countP_cons]
      rw [dateMatch_congr iso iso2 entry hdate, dateMatch_congr iso iso2 k hkd]
    · rw [replaceFirst, if_neg (by simp [hm])]
      rw [List.countP_cons, List.countP_cons, ih]

theorem keepOtherDates_eq_filter (iso : String) (xs : List JValue)
    (h : ∀ e ∈ xs, ∃ k, e = .dict k) :
    keepOtherDates iso xs = .ok (xs.filter (fun e => !dateMatch iso e)) := by
  induction xs with
  | nil => rfl
  | cons e rest ih =>
    obtain ⟨k, hk⟩ := h e (by simp)
    subst hk
    have ihr := ih (fun x hx => h x (by simp [hx]))
    by_cases hm : pyGet k "date" == some (JField.scalar (.str iso))
    · simp [keepOtherDates, ihr, hm, List.filter_cons, dateMatch_dict]
    · simp [keepOtherDates, ihr, hm, List.filter_cons, dateMatch_dict]

end Journey

/-! Lemmas about the stable insertion sort. -/

theorem insertLt_perm {α : Type} (lt : α → α → Bool) (a : α) (l : List α) :
    (insertLt lt a l).Perm (a :: l) := by
  induction l with
  | nil => exact List.Perm.refl _
  | cons b bs ih =>
    by_cases h : lt b a
    · rw [insertLt, if_pos h]
      exact (List.Perm.cons b ih).trans (List.Perm.swap a b bs)
    · rw [insertLt, if_neg h]

theorem insSort_perm {α : Type} (lt : α → α → Bool) (l : List α) :
    (insSort lt l).Perm l := by
  induction l with
  | nil => exact List.Perm.refl _
  | cons a as ih =>
    rw [insSort]
    exact (insertLt_perm lt a (insSort lt as)).trans (List.Perm.cons a ih)

theorem insertLt_pairwise {α : Type} (lt : α → α → Bool)
    (htr : ∀ a b c, lt a b = false → lt b c = false → lt a c = false)
    (hasym : ∀ a b, lt a b = true → lt b a = false)
    (a : α) (l : List α) (hl : l.Pairwise (fun x y => lt y x = false)) :
    (insertLt lt a l).Pairwise (fun x y => lt y x = false) := by
  induction l with
  | nil => simp [insertLt]
  | cons b bs ih =>
    rcases List.pairwise_cons.mp hl with ⟨hb, hbs⟩
    by_cases h : lt b a
    · rw [insertLt, if_pos h]
      refine List.pairwise_cons.mpr ⟨?_, ih hbs⟩
      intro y hy
      have hy2 : y = a ∨ y ∈ bs := by
        simpa using (insertLt_perm lt a bs).mem_iff.mp hy
      rcases hy2 with rfl | hy2
      · exact hasym b y h
      · exact hb y hy2
    · rw [insertLt, if_neg h]
      refine List.pairwise_cons.mpr ⟨?_, hl⟩
      intro y hy
      have hba : lt b a = false := by
        revert h
        cases lt b a <;> simp
      rcases List.mem_cons.mp hy with rfl | hy2
      · exact hba
      · exact htr y b a (hb y hy2) hba

theorem insSort_pairwise {α : Type} (lt : α → α → Bool)
    (htr : ∀ a b c, lt a b = false → lt b c = false → lt a c = false)
    (hasym : ∀ a b, lt a b = true → lt b a = false)
    (l : List α) :
    (insSort lt l).Pairwise (fun x y => lt y x = false) := by
  induction l with
  | nil => simp [insSort]
  | cons a as ih =>
    rw [insSort]
    exact insertLt_pairwise lt htr hasym a _ ih

theorem lexLt_asymm : ∀ x y : List Char, lexLt x y = true → lexLt y x = false := by
  intro x
  induction x with
  | nil =>
    intro y h
    cases y with
    | nil => simp [lexLt] at h
    | cons b bs => rfl
  | cons a as ih =>
    intro y h
    cases y with
    | nil => simp [lexLt] at h
    | cons b bs =>
      rw [lexLt] at h ⊢
      rw [Bool.or_eq_true] at h
      rcases h with h | h
      · have hab : a.toNat < b.toNat := of_decide_eq_true h
        have h1 : decide (b.toNat < a.toNat) = false := by
          simp
          omega
        have h2 : (b.toNat == a.toNat) = false := by
          simp
          omega
        rw [h1, h2]
        rfl
      · rw [Bool.and_eq_true] at h
        have hab : a.toNat = b.toNat := by simpa using h.1
        have hrec := ih bs h.2
        have h1 : decide (b.toNat < a.toNat) = false := by
          simp
          omega
        rw [h1, Bool.false_or, hab]
        simp [hrec]

theorem lexLt_negtrans :
    ∀ x y z : List Char, lexLt x y = false → lexLt y z = false →
      lexLt x z = false := by
  intro x
  induction x with
  | nil =>
    intro y z h1 h2
    cases y with
    | cons b bs => simp [lexLt] at h1
    | nil =>
      cases z with
      | cons c cs => simp [lexLt] at h2
      | nil => rfl
  | cons a as ih =>
    intro y z h1 h2
    cases z with
    | nil => rfl
    | cons c cs =>
      cases y with
      | nil => simp [lexLt] at h2
      | cons b bs =>
        rw [lexLt] at h1 h2 ⊢
        rw [Bool.or_eq_false_iff, Bool.and_eq_false_iff] at h1 h2
        have hba : ¬ a.toNat < b.toNat := by
          simpa using h1.1
        have hcb : ¬ b.toNat < c.toNat := by
          simpa using h2.1
        rw [Bool.or_eq_false_iff, Bool.and_eq_false_iff]
        refine ⟨by simp; omega, ?_⟩
        by_cases hac : a.toNat = c.toNat
        · have habn : a.toNat = b.toNat := by omega
          have hbcn : b.toNat = c.toNat := by omega
          have hasbs : lexLt as bs = false := by
            rcases h1.2 with h | h
            · rw [habn] at h
              simp at h
            · exact h
          have hbscs : lexLt bs cs = false := by
            rcases h2.2 with h | h
            · rw [hbcn] at h
              simp at h
            · exact h
          exact .inr (ih bs cs hasbs hbscs)
        · exact .inl (by simpa using hac)

namespace Tracker

theorem keyLt_asymm (a b : Bool × String) (h : keyLt a b = true) :
    keyLt b a = false := by
  rcases a with ⟨p, s⟩
  rcases b with ⟨q, t⟩
  cases p <;> cases q <;> simp_all [keyLt, strLtB] <;>
    exact lexLt_asymm _ _ h

theorem keyLt_negtrans (a b c : Bool × String) (h1 : keyLt a b = false)
    (h2 : keyLt b c = false) : keyLt a c = false := by
  rcases a with ⟨p, s⟩
  rcases b with ⟨q, t⟩
  rcases c with ⟨r, u⟩
  cases p <;> cases q <;> cases r <;> simp_all [keyLt, strLtB] <;>
    exact lexLt_negtrans _ _ _ h1 h2

theorem resLt_asymm (a b : Resource) (h : resLt a b = true) :
    resLt b a = false :=
  keyLt_asymm _ _ h

theorem resLt_negtrans (a b c : Resource) (h1 : resLt a b = false)
    (h2 : resLt b c = false) : resLt a c = false :=
  keyLt_negtrans _ _ _ h1 h2

end Tracker

/-! Lemmas about the substring test. -/

theorem hasSubList_nil_q (l : List Char) : hasSubList [] l = true := by
  cases l <;> simp [hasSubList, hasPre]

theorem hasPre_append (q : List Char) :
    ∀ h t : List Char, hasPre q h = true → hasPre q (h ++ t) = true := by
  induction q with
  | nil => intro h t _; rfl
  | cons a as ih =>
    intro h t hp
    cases h with
    | nil => simp [hasPre] at hp
    | cons b bs =>
      simp only [hasPre, Bool.and_eq_true] at hp
      simp only [List.cons_append, hasPre, Bool.and_eq_true]
      exact ⟨hp.1, ih bs t hp.2⟩

theorem hasSubList_of_hasPre (q h : List Char) (hp : hasPre q h = true) :
    hasSubList q h = true := by
  cases h with
  | nil => simpa [hasSubList] using hp
  | cons c r => simp [hasSubList, hp]

theorem hasSubList_append_right (q : List Char) :
    ∀ x y : List Char, hasSubList q x = true → hasSubList q (x ++ y) = true := by
  intro x
  induction x with
  | nil =>
    intro y h
    have hq : q = [] := by
      cases q with
      | nil => rfl
      | cons a as => simp [hasSubList, hasPre] at h
    subst hq
    exact hasSubList_nil_q _
  | cons c rest ih =>
    intro y h
    simp only [hasSubList, Bool.or_eq_true] at h
    rcases h with h | h
    · exact hasSubList_of_hasPre q _ (by simpa [List.cons_append] using hasPre_append q (c :: rest) y h)
    · simp only [List.cons_append, hasSubList, Bool.or_eq_true]
      exact .inr (ih y h)

theorem hasSubList_append_left (q : List Char) :
    ∀ x y : List Char, hasSubList q y = true → hasSubList q (x ++ y) = true := by
  intro x
  induction x with
  | nil => intro y h; simpa using h
  | cons c rest ih =>
    intro y h
    simp only [List.cons_append, hasSubList, Bool.or_eq_true]
    exact .inr (ih y h)

theorem lowerStr_data (s : String) : (lowerStr s).data = s.data.map Char.toLower := rfl

theorem hasSubStr_lower_append_right (q : String) (x y : String)
    (h : hasSubStr q (lowerStr x) = true) :
    hasSubStr q (lowerStr (x ++ y)) = true := by
  have hx : (lowerStr (x ++ y)).data = (lowerStr x).data ++ (lowerStr y).data := by
    simp [lowerStr_data]
  unfold hasSubStr at h ⊢
  rw [show (lowerStr (x ++ y)).toList = (lowerStr x).toList ++ (lowerStr y).toList from hx]
  exact hasSubList_append_right _ _ _ h

theorem hasSubStr_lower_append_left (q : String) (x y : String)
    (h : hasSubStr q (lowerStr y) = true) :
    hasSubStr q (lowerStr (x ++ y)) = true := by
  have hx : (lowerStr (x ++ y)).data = (lowerStr x).data ++ (lowerStr y).data := by
    simp [lowerStr_data]
  unfold hasSubStr at h ⊢
  rw [show (lowerStr (x ++ y)).toList = (lowerStr x).toList ++ (lowerStr y).toList from hx]
  exact hasSubList_append_left _ _ _ h

namespace RM

theorem updateOrAppend_of_fresh (t u : String) (data : List (String × String))
    (h : ∀ p ∈ data, pyStrip p.2 ≠ u) :
    updateOrAppend t u data = data ++ [(t, u)] := by
  induction data with
  | nil => rfl
  | cons p rest ih =>
    obtain ⟨t0, u0⟩ := p
    have hu : pyStrip u0 ≠ u := h (t0, u0) (by simp)
    rw [updateOrAppend, if_neg (by simpa using hu)]
    rw [ih (fun q hq => h q (by simp [hq]))]
    simp

theorem parseLink_mk (t u : String) (h1 : pyStrip t = t) (h2 : pyStrip u = u)
    (h3 : t ≠ "") (h4 : u ≠ "") :
    parseLink (.dict [("title", .scalar (.str t)), ("url", .scalar (.str u))]) =
      some (t, u) := by
  simp [parseLink, pyGet, strOfJField, strOfScalar, h1, h2, h3, h4]

theorem load_saveFile (data : List (String × String))
    (h : ∀ p ∈ data, pyStrip p.1 = p.1 ∧ pyStrip p.2 = p.2 ∧ p.1 ≠ "" ∧ p.2 ≠ "") :
    load (saveFile data) = data := by
  induction data with
  | nil => rfl
  | cons p rest ih =>
    obtain ⟨t, u⟩ := p
    obtain ⟨h1, h2, h3, h4⟩ := h (t, u) (by simp)
    have ihr := ih (fun q hq => h q (by simp [hq]))
    simp only [load, saveFile, List.map_cons, List.filterMap_cons,
      parseLink_mk t u h1 h2 h3 h4] at ihr ⊢
    rw [ihr]

end RM

namespace JJ

theorem findIdxFrom_set_replaceFirstJJ (d : String) (x : JournalEntry)
    (xs : List JournalEntry) :
    ∀ n m, findIdxFrom d xs n = some m →
      n ≤ m ∧ xs.set (m - n) x = replaceFirstJJ d x xs := by
  induction xs with
  | nil => intro n m h; simp [findIdxFrom] at h
  | cons e rest ih =>
    intro n m h
    by_cases hm : e.entry_date == d
    · rw [findIdxFrom, if_pos hm] at h
      have hmn : n = m := by simpa using h
      subst hmn
      refine ⟨le_refl n, ?_⟩
      simp [List.set, replaceFirstJJ, hm]
    · rw [findIdxFrom, if_neg hm] at h
      obtain ⟨hle, hset⟩ := ih (n + 1) m h
      refine ⟨by omega, ?_⟩
      have hmn : m - n = (m - (n + 1)) + 1 := by omega
      rw [hmn]
      simp only [List.set, hset]
      rw [replaceFirstJJ, if_neg hm]

theorem countP_replaceFirstJJ (d : String) (x : JournalEntry)
    (hx : x.entry_date = d) (xs : List JournalEntry) (d2 : String) :
    (replaceFirstJJ d x xs).countP (fun e => e.entry_date == d2) =
      xs.countP (fun e => e.entry_date == d2) := by
  induction xs with
  | nil => rfl
  | cons e rest ih =>
    by_cases hm : e.entry_date == d
    · rw [replaceFirstJJ, if_pos hm]
      rw [List.countP_cons, List.countP_cons]
      have he : e.entry_date = d := by simpa using hm
      simp [hx, he]
    · rw [replaceFirstJJ, if_neg hm]
      rw [List.countP_cons, List.countP_cons, ih]

theorem countP_sort_entries (xs : List JournalEntry) (p : JournalEntry → Bool) :
    (sort_entries xs).countP p = xs.countP p :=
  (insSort_perm _ xs).countP_eq p

end JJ

namespace CycleT

theorem pyGet_asdict_start (e : CycleEntry) :
    pyGet (asdict e) "start_date" = some e.start_date := rfl

theorem pyGet_asdict_end (e : CycleEntry) :
    pyGet (asdict e) "end_date" = some e.end_date := by
  simp [asdict, pyGet]

theorem pyGet_asdict_intensity (e : CycleEntry) :
    pyGet (asdict e) "intensity" = some e.intensity := by
  simp [asdict, pyGet]

theorem pyGet_asdict_notes (e : CycleEntry) :
    pyGet (asdict e) "notes" = some e.notes := by
  simp [asdict, pyGet]

theorem pyGet_asdict_tags (e : CycleEntry) :
    pyGet (asdict e) "tags" = some e.tags := by
  simp [asdict, pyGet]

theorem parseItem_asdict (e : CycleEntry) (ts : List Scalar)
    (h : e.tags = .list ts) :
    parseItem (asdict e) = some e := by
  rw [parseItem]
  rw [pyGet_asdict_start, pyGet_asdict_end]
  simp only [pyGet_asdict_intensity, pyGet_asdict_notes, pyGet_asdict_tags,
    Option.getD_some, h]
  rw [← h]

theorem load_save_single (e : CycleEntry) (ts : List Scalar)
    (h : e.tags = .list ts) : load (save [e]) = .ok [e] := by
  have hp := parseItem_asdict e ts h
  simp [save, load, parseItems, hp, insSort, insertLt]

end CycleT

namespace Voice

theorem maxAbs_cons (x : ℚ) (l : List ℚ) :
    maxAbs (x :: l) = max |x| (maxAbs l) := rfl

theorem runTrack_cons_loud {σ : Type} (step : σ → List ℚ → σ × Option ℚ)
    (s : σ) (f : List ℚ) (fsr : List (List ℚ)) (h : ¬ maxAbs f < 1 / 1000) :
    runTrack step s (f :: fsr) =
      (step s f).2 :: runTrack step (step s f).1 fsr := by
  rw [runTrack, if_neg h]

end Voice

/-! The claims. -/

/-- C7 (confirmed): Corruption isolation. Loading a file whose content is not
valid JSON raises nothing (the model of `load_data` is total on this input),
returns the empty sequence, and leaves the file state byte-for-byte
unchanged. -/
theorem C7_corruption_isolation (now : String) (uuids : Nat → String)
    (b : String) :
    Journey.load_data now uuids (some (.invalid b)) = ([], some (.invalid b)) := rfl

/-- C6 counterexample: a file whose content is the valid JSON document `42` is
invalid content for the cycle store, yet `CycleStorage.load` raises an
unhandled `TypeError` on it instead of returning an empty sequence. -/
theorem C6_counterexample :
    CycleT.load (some (.jsonScalar (.int 42))) = .error .typeError := rfl

/-- C6 amended: with "invalid content" restricted to content that is not valid
JSON, all three loaders return an empty sequence for an absent file and for an
unparseable file; `CycleStorage.load` still raises `TypeError` on valid JSON
that is not a list (see the counterexample). -/
theorem C6_amended (now : String) (uuids : Nat → String) (b : String) :
    Journey.load_data now uuids none = ([], none) ∧
    Journey.load_data now uuids (some (.invalid b)) = ([], some (.invalid b)) ∧
    CycleT.load none = .ok [] ∧
    CycleT.load (some (.invalid b)) = .ok [] ∧
    RM.load none = [] ∧
    RM.load (some (.invalid b)) = [] :=
  ⟨rfl, rfl, rfl, rfl, rfl, rfl⟩

/-- C5 (confirmed): whenever the data file parses as a JSON list, every dict
entry in the sequence returned by `load_data` has truthy (for a string value,
non-empty) `id`, `created_at` and `updated_at` fields, and if the upgrade
changed anything the file is rewritten with the upgraded list during the load
call itself (otherwise it is left as it was). -/
theorem C5_schema_upgrade (now : String) (uuids : Nat → String)
    (xs : List JValue) (hnow : now ≠ "") (hu : ∀ m, uuids m ≠ "") :
    (∀ e ∈ (Journey.load_data now uuids (some (.jsonList xs))).1,
      ∀ kvs, e = .dict kvs →
        truthyKey kvs "id" = true ∧ truthyKey kvs "created_at" = true ∧
          truthyKey kvs "updated_at" = true) ∧
    ((Journey.upgradeList now uuids 0 xs).2.1 = true →
      (Journey.load_data now uuids (some (.jsonList xs))).2 =
        Journey.write_data (Journey.load_data now uuids (some (.jsonList xs))).1) ∧
    ((Journey.upgradeList now uuids 0 xs).2.1 = false →
      (Journey.load_data now uuids (some (.jsonList xs))).2 = some (.jsonList xs)) := by
  refine ⟨?_, ?_, ?_⟩
  · intro e he kvs hkvs
    exact Journey.upgradeList_complete now uuids hnow hu xs 0 e he kvs hkvs
  · intro hc
    simp [Journey.load_data, hc]
  · intro hc
    simp [Journey.load_data, hc]

/-- C5 witness: on the store `[{}]` the hypotheses hold and the file is
rewritten with the upgraded entry during the load. -/
theorem C5_witness :
    (Journey.load_data "T" (fun _ => "u") (some (.jsonList [JValue.dict []]))).2 =
      Journey.write_data
        (Journey.load_data "T" (fun _ => "u") (some (.jsonList [JValue.dict []]))).1 :=
  (C5_schema_upgrade "T" (fun _ => "u") [JValue.dict []] (by decide)
    (fun _ => by show ("u" : String) ≠ ""; decide)).2.1 (by decide)

/-- C10 (confirmed): with the external pitch library treated as an
uninterpreted stateful function (`step` over an arbitrary state type `σ`,
returning `none` for a non-finite float), every value in the array returned by
`estimate_pitch_track` is a (finite) rational strictly between 50 and 500, and
`estimate_average_pitch` returns `none` exactly when that array (at the
default hop size 512) is empty and otherwise returns its median. -/
theorem C10_pitch (σ : Type) (step : σ → List ℚ → σ × Option ℚ) (s0 : σ)
    (audio : List (Option ℚ)) (sampleRate : Nat) (hop : Nat) :
    (∀ p ∈ Voice.estimate_pitch_track step s0 audio sampleRate hop,
      50 < p ∧ p < 500) ∧
    (Voice.estimate_average_pitch step s0 audio sampleRate = none ↔
      Voice.estimate_pitch_track step s0 audio sampleRate 512 = []) ∧
    (Voice.estimate_pitch_track step s0 audio sampleRate 512 ≠ [] →
      Voice.estimate_average_pitch step s0 audio sampleRate =
        some (Voice.npMedian
          (Voice.estimate_pitch_track step s0 audio sampleRate 512))) := by
  refine ⟨?_, ?_, ?_⟩
  · intro p hp
    cases ha : audio.isEmpty with
    | true => simp [Voice.estimate_pitch_track, ha] at hp
    | false =>
      simp only [Voice.estimate_pitch_track, ha, Bool.false_eq_true,
        if_false] at hp
      have hm := List.mem_filter.mp hp
      have hb := hm.2
      rw [Bool.and_eq_true] at hb
      exact ⟨of_decide_eq_true hb.1, of_decide_eq_true hb.2⟩
  · rw [Voice.estimate_average_pitch]
    cases hE : (Voice.estimate_pitch_track step s0 audio sampleRate 512).isEmpty with
    | true =>
      simp only [hE, if_true]
      simpa using List.isEmpty_iff.mp hE
    | false =>
      simp only [hE, Bool.false_eq_true, if_false]
      constructor
      · intro h
        exact absurd h (by simp)
      · intro h
        exact absurd (List.isEmpty_iff.mpr h) (by simp [hE])
  · intro hne
    rw [Voice.estimate_average_pitch]
    have hE : (Voice.estimate_pitch_track step s0 audio sampleRate 512).isEmpty = false := by
      cases hE : (Voice.estimate_pitch_track step s0 audio sampleRate 512).isEmpty with
      | true => exact absurd (List.isEmpty_iff.mp hE) hne
      | false => rfl
    simp only [hE, Bool.false_eq_true, if_false]

/-- C10 witness: a one-sample audio input with an oracle that always reports
100 Hz yields a non-empty track, so the average is its median. -/
theorem C10_witness :
    Voice.estimate_average_pitch (fun (_ : Unit) (_ : List ℚ) => ((), some (100 : ℚ)))
        () [some 1] 44100 =
      some (Voice.npMedian (Voice.estimate_pitch_track
        (fun (_ : Unit) (_ : List ℚ) => ((), some (100 : ℚ))) () [some 1] 44100 512)) := by
  have hlt : ¬ Voice.maxAbs (Voice.padTo 512 [1]) < 1 / 1000 := by
    intro hcon
    have h1 : |(1 : ℚ)| ≤ Voice.maxAbs (Voice.padTo 512 [1]) := by
      rw [show Voice.padTo 512 [1] = 1 :: List.replicate 511 0 from rfl,
        Voice.maxAbs_cons]
      exact le_max_left _ _
    rw [abs_one] at h1
    linarith
  have ht : Voice.estimate_pitch_track
      (fun (_ : Unit) (_ : List ℚ) => ((), some (100 : ℚ))) () [some 1] 44100 512 =
      [100] := by
    rw [Voice.estimate_pitch_track,
      if_neg (by decide : ¬ (([some (1 : ℚ)] : List (Option ℚ)).isEmpty = true)),
      show Voice.frames 512 (Voice.sanitize [some 1]) = [Voice.padTo 512 [1]] from rfl,
      Voice.runTrack_cons_loud _ _ _ _ hlt]
    norm_num [Voice.runTrack, List.filterMap, List.filter]
  exact (C10_pitch Unit (fun _ _ => ((), some (100 : ℚ))) () [some 1] 44100 512).2.2
    (by rw [ht]; simp)

namespace Journey

theorem entryOk_dict (e : JValue) (h : entryOk e = true) :
    ∃ k, e = JValue.dict k := by
  cases e with
  | val f => simp [entryOk] at h
  | dict k => exact ⟨k, rfl⟩

theorem entryOk_noUpgrade (e : JValue) (h : entryOk e = true) :
    entryNoUpgrade e = true := by
  cases e with
  | val f => rfl
  | dict k => simpa [entryNoUpgrade] using h

end Journey

/-- C1 counterexample: saving the one-element sequence `[{}]` with the Journey
whole-file write and re-loading it does not yield `[{}]` — the load's schema
upgrade adds `id`, `created_at` and `updated_at` fields to the record. -/
theorem C1_counterexample :
    (Journey.load_data "T" (fun _ => "u")
        (Journey.write_data [JValue.dict []])).1 ≠ [JValue.dict []] := by
  decide

/-- C1 amended: the round-trip `load(save([r])) = [r]` holds for Journey
records the schema upgrade leaves untouched (bare values, or records with
truthy `id`, `created_at`, `updated_at`), and for Cycle Tracker entries whose
`tags` field is a list, as the dataclass declares; for other Journey records
the load returns the upgraded record instead (see the counterexample). -/
theorem C1_amended (now : String) (uuids : Nat → String) (r : JValue)
    (e : CycleT.CycleEntry) (ts : List Scalar)
    (hr : Journey.entryNoUpgrade r = true) (hts : e.tags = .list ts) :
    Journey.load_data now uuids (Journey.write_data [r]) =
      ([r], Journey.write_data [r]) ∧
    CycleT.load (CycleT.save [e]) = .ok [e] := by
  constructor
  · have h := Journey.load_data_noop now uuids [r]
      (by intro x hx; rw [List.mem_singleton] at hx; subst hx; exact hr)
    simpa [Journey.write_data] using h
  · exact CycleT.load_save_single e ts hts

/-- C1 witness: the round-trip at a bare string record and at a concrete cycle
entry. -/
theorem C1_witness :
    Journey.load_data "T" (fun _ => "u")
        (Journey.write_data [JValue.val (.scalar (.str "x"))]) =
      ([JValue.val (.scalar (.str "x"))],
        Journey.write_data [JValue.val (.scalar (.str "x"))]) ∧
    CycleT.load (CycleT.save
        [⟨.scalar (.str "2024-01-01"), .scalar (.str "2024-01-02"),
          .scalar (.str "none"), .scalar (.str ""), .list []⟩]) =
      .ok [⟨.scalar (.str "2024-01-01"), .scalar (.str "2024-01-02"),
          .scalar (.str "none"), .scalar (.str ""), .list []⟩] :=
  C1_amended "T" (fun _ => "u") (JValue.val (.scalar (.str "x")))
    ⟨.scalar (.str "2024-01-01"), .scalar (.str "2024-01-02"),
      .scalar (.str "none"), .scalar (.str ""), .list []⟩ []
    (by decide) rfl

/-- C2 counterexample: the store holds a schema-complete record for 2024-01-01
and a second record for 2024-01-02 lacking `id`/timestamps; upserting by key
2024-01-01 replaces the matching record but also rewrites the other record
with upgraded fields, so it is not byte-for-byte unchanged. -/
theorem C2_counterexample :
    Journey.upsert_entry
        [("date", .scalar (.str "2024-01-01")), ("id", .scalar (.str "b")),
         ("created_at", .scalar (.str "c")), ("updated_at", .scalar (.str "t")),
         ("notes", .scalar (.str "x"))]
        "T" (fun _ => "u")
        (some (.jsonList
          [JValue.dict
            [("date", .scalar (.str "2024-01-01")), ("id", .scalar (.str "a")),
             ("created_at", .scalar (.str "c")), ("updated_at", .scalar (.str "t"))],
           JValue.dict [("date", .scalar (.str "2024-01-02"))]]))
      = .ok (true, some (.jsonList
          [JValue.dict
            [("date", .scalar (.str "2024-01-01")), ("id", .scalar (.str "b")),
             ("created_at", .scalar (.str "c")), ("updated_at", .scalar (.str "t")),
             ("notes", .scalar (.str "x"))],
           JValue.dict
            [("date", .scalar (.str "2024-01-02")), ("id", .scalar (.str "u")),
             ("created_at", .scalar (.str "T")), ("updated_at", .scalar (.str "T"))]]))
    ∧ JValue.dict
        [("date", .scalar (.str "2024-01-02")), ("id", .scalar (.str "u")),
         ("created_at", .scalar (.str "T")), ("updated_at", .scalar (.str "T"))]
      ≠ JValue.dict [("date", .scalar (.str "2024-01-02"))] := by
  decide

/-- C2 amended: when every record in the store is a schema-complete dict and
the key is present, the upsert replaces exactly the first record matching the
key and leaves every other record byte-for-byte unchanged; if some other
record is missing `id`/`created_at`/`updated_at`, the load inside the upsert
rewrites it too (see the counterexample). -/
theorem C2_amended (now : String) (uuids : Nat → String)
    (entry : List (String × JField)) (iso : String)
    (pre post : List JValue) (old : List (String × JField))
    (hiso : Journey.upsertIso entry = .ok iso)
    (hpre : ∀ e ∈ pre, Journey.entryOk e = true ∧ Journey.dateMatch iso e = false)
    (hpost : ∀ e ∈ post, Journey.entryOk e = true)
    (holdok : Journey.entryOk (.dict old) = true)
    (hold : Journey.dateMatch iso (.dict old) = true) :
    Journey.upsert_entry entry now uuids
        (some (.jsonList (pre ++ .dict old :: post))) =
      .ok (true, Journey.write_data (pre ++ .dict entry :: post)) := by
  have hxs : ∀ e ∈ pre ++ JValue.dict old :: post, Journey.entryNoUpgrade e = true := by
    intro e he
    rcases List.mem_append.mp he with he | he
    · exact Journey.entryOk_noUpgrade e (hpre e he).1
    · rcases List.mem_cons.mp he with rfl | he
      · exact Journey.entryOk_noUpgrade _ holdok
      · exact Journey.entryOk_noUpgrade e (hpost e he)
  have hload := Journey.load_data_noop now uuids (pre ++ JValue.dict old :: post) hxs
  have hfind := Journey.findDateIdx_append iso pre post old
    (fun e he => ⟨Journey.entryOk_dict e (hpre e he).1, (hpre e he).2⟩) hold 0
  simp only [Journey.upsert_entry, hiso, hload, hfind, Nat.zero_add]
  rw [Journey.set_append_len]

namespace Journey

theorem findDateIdx_none (iso : String) (xs : List JValue)
    (h : ∀ e ∈ xs, (∃ k, e = JValue.dict k) ∧ dateMatch iso e = false) :
    ∀ n, findDateIdx iso xs n = .ok none := by
  induction xs with
  | nil => intro n; rfl
  | cons e rest ih =>
    intro n
    obtain ⟨⟨k, hk⟩, hnm⟩ := h e (by simp)
    subst hk
    rw [dateMatch_dict] at hnm
    rw [findDateIdx, if_neg (by simp [hnm])]
    exact ih (fun x hx => h x (by simp [hx])) (n + 1)

end Journey

/-- C3 counterexample: deleting a non-existent date from a store whose single
record lacks `id`/timestamps returns false, but the load inside the delete
rewrites the file with the upgraded record, so the store is not left
unchanged. -/
theorem C3_counterexample :
    Journey.delete_entry_by_date "2024-02-02" "T" (fun _ => "u")
        (some (.jsonList [JValue.dict [("date", .scalar (.str "2024-01-01"))]]))
      = .ok (false, some (.jsonList
          [JValue.dict
            [("date", .scalar (.str "2024-01-01")), ("id", .scalar (.str "u")),
             ("created_at", .scalar (.str "T")), ("updated_at", .scalar (.str "T"))]]))
    ∧ (some (FileContent.jsonList
          [JValue.dict
            [("date", .scalar (.str "2024-01-01")), ("id", .scalar (.str "u")),
             ("created_at", .scalar (.str "T")), ("updated_at", .scalar (.str "T"))]]) :
        FileState)
      ≠ some (.jsonList [JValue.dict [("date", .scalar (.str "2024-01-01"))]]) := by
  decide

/-- C3 amended: on a store of schema-complete records, the upsert returns true
when a record with the key exists and false (inserting, with no exception)
when none does, and deleting an absent key returns false and leaves the file
state unchanged; on stores with schema-incomplete records the load inside
these operations itself rewrites the file (see the counterexample). -/
theorem C3_amended (now : String) (uuids : Nat → String)
    (entry : List (String × JField)) (iso iso2 : String) (xs : List JValue)
    (hiso : Journey.upsertIso entry = .ok iso)
    (hok : ∀ e ∈ xs, Journey.entryOk e = true) :
    ((∀ e ∈ xs, Journey.dateMatch iso e = false) →
      Journey.upsert_entry entry now uuids (some (.jsonList xs)) =
        .ok (false, Journey.write_data (xs ++ [.dict entry]))) ∧
    ((∃ e ∈ xs, Journey.dateMatch iso e = true) →
      ∃ fs2, Journey.upsert_entry entry now uuids (some (.jsonList xs)) =
        .ok (true, fs2)) ∧
    ((∀ e ∈ xs, Journey.dateMatch iso2 e = false) →
      Journey.delete_entry_by_date iso2 now uuids (some (.jsonList xs)) =
        .ok (false, some (.jsonList xs))) := by
  have hload := Journey.load_data_noop now uuids xs
    (fun e he => Journey.entryOk_noUpgrade e (hok e he))
  have hdicts : ∀ e ∈ xs, ∃ k, e = JValue.dict k :=
    fun e he => Journey.entryOk_dict e (hok e he)
  refine ⟨?_, ?_, ?_⟩
  · intro hnone
    have hfind := Journey.findDateIdx_none iso xs
      (fun e he => ⟨hdicts e he, hnone e he⟩) 0
    simp only [Journey.upsert_entry, hiso, hload, hfind]
  · intro hex
    rcases Journey.findDateIdx_total iso xs hdicts 0 with ⟨i, hi⟩ | ⟨hn, hall⟩
    · refine ⟨Journey.write_data (xs.set i (.dict entry)), ?_⟩
      simp only [Journey.upsert_entry, hiso, hload, hi]
    · obtain ⟨e, he, hm⟩ := hex
      rw [hall e he] at hm
      exact absurd hm (by simp)
  · intro hnone
    have hkeep := Journey.keepOtherDates_eq_filter iso2 xs hdicts
    have hfilt : xs.filter (fun e => !Journey.dateMatch iso2 e) = xs :=
      List.filter_eq_self.mpr (fun e he => by simp [hnone e he])
    simp [Journey.delete_entry_by_date, hload, hkeep, hfilt]

/-- C3 witness: a concrete schema-complete store where the upserted key is
absent (returns false, no exception) and the deleted key is absent (returns
false, store unchanged). -/
theorem C3_witness :
    Journey.upsert_entry
        [("date", .scalar (.str "2024-03-03")), ("id", .scalar (.str "b")),
         ("created_at", .scalar (.str "c")), ("updated_at", .scalar (.str "t"))]
        "T" (fun _ => "u")
        (some (.jsonList
          [JValue.dict
            [("date", .scalar (.str "2024-01-01")), ("id", .scalar (.str "a")),
             ("created_at", .scalar (.str "c")), ("updated_at", .scalar (.str "t"))]]))
      = .ok (false, Journey.write_data
          [JValue.dict
            [("date", .scalar (.str "2024-01-01")), ("id", .scalar (.str "a")),
             ("created_at", .scalar (.str "c")), ("updated_at", .scalar (.str "t"))],
           JValue.dict
            [("date", .scalar (.str "2024-03-03")), ("id", .scalar (.str "b")),
             ("created_at", .scalar (.str "c")), ("updated_at", .scalar (.str "t"))]])
    ∧ Journey.delete_entry_by_date "2024-02-02" "T" (fun _ => "u")
        (some (.jsonList
          [JValue.dict
            [("date", .scalar (.str "2024-01-01")), ("id", .scalar (.str "a")),
             ("created_at", .scalar (.str "c")), ("updated_at", .scalar (.str "t"))]]))
      = .ok (false, some (.jsonList
          [JValue.dict
            [("date", .scalar (.str "2024-01-01")), ("id", .scalar (.str "a")),
             ("created_at", .scalar (.str "c")), ("updated_at", .scalar (.str "t"))]])) := by
  constructor
  · exact (C3_amended "T" (fun _ => "u") _ "2024-03-03" "x" _ (by decide)
      (by decide)).1 (by decide)
  · exact (C3_amended "T" (fun _ => "u")
      [("date", .scalar (.str "2024-03-03")), ("id", .scalar (.str "b")),
       ("created_at", .scalar (.str "c")), ("updated_at", .scalar (.str "t"))]
      "2024-03-03" "2024-02-02" _ (by decide) (by decide)).2.2 (by decide)

/-- C2 witness: a two-record schema-complete store; upserting 2024-01-01
replaces only that record. -/
theorem C2_witness :
    Journey.upsert_entry
        [("date", .scalar (.str "2024-01-01")), ("id", .scalar (.str "b")),
         ("created_at", .scalar (.str "c")), ("updated_at", .scalar (.str "t"))]
        "T" (fun _ => "u")
        (some (.jsonList
          [JValue.dict
            [("date", .scalar (.str "2024-01-02")), ("id", .scalar (.str "a")),
             ("created_at", .scalar (.str "c")), ("updated_at", .scalar (.str "t"))],
           JValue.dict
            [("date", .scalar (.str "2024-01-01")), ("id", .scalar (.str "z")),
             ("created_at", .scalar (.str "c")), ("updated_at", .scalar (.str "t"))]]))
      = .ok (true, Journey.write_data
          ([JValue.dict
             [("date", .scalar (.str "2024-01-02")), ("id", .scalar (.str "a")),
              ("created_at", .scalar (.str "c")), ("updated_at", .scalar (.str "t"))]] ++
           JValue.dict
             [("date", .scalar (.str "2024-01-01")), ("id", .scalar (.str "b")),
              ("created_at", .scalar (.str "c")), ("updated_at", .scalar (.str "t"))] :: [])) :=
  C2_amended "T" (fun _ => "u")
    [("date", .scalar (.str "2024-01-01")), ("id", .scalar (.str "b")),
     ("created_at", .scalar (.str "c")), ("updated_at", .scalar (.str "t"))]
    "2024-01-01"
    [JValue.dict
      [("date", .scalar (.str "2024-01-02")), ("id", .scalar (.str "a")),
       ("created_at", .scalar (.str "c")), ("updated_at", .scalar (.str "t"))]]
    []
    [("date", .scalar (.str "2024-01-01")), ("id", .scalar (.str "z")),
     ("created_at", .scalar (.str "c")), ("updated_at", .scalar (.str "t"))]
    (by decide) (by decide) (by decide) (by decide) (by decide)

/-- C4 counterexample: `add_link` with a url already present does not append —
it retitles the existing entry in place, so the store does not end with the
old records plus the new one. -/
theorem C4_counterexample :
    RM.add_link [("a", "u1")] (RM.saveFile [("a", "u1")]) "b" "u1"
      = ([("b", "u1")], RM.saveFile [("b", "u1")])
    ∧ ([("b", "u1")] : List (String × String)) ≠ [("a", "u1"), ("b", "u1")] := by
  decide

/-- C4 amended: Journey `save_entry` appends and a subsequent load returns the
old records plus the new one, last, provided the schema upgrade touches none
of them; `add_link` appends (and the saved file loads back to exactly the new
list) provided its stripped title and url are non-empty and the url is not
already stored — when the url is already present it retitles in place instead
(see the counterexample). -/
theorem C4_amended (now : String) (uuids : Nat → String) (entry : JValue)
    (xs : List JValue) (data : List (String × String)) (fs : FileState)
    (title url : String)
    (hxs : ∀ e ∈ xs ++ [entry], Journey.entryNoUpgrade e = true)
    (hts : pyStrip title = title) (hus : pyStrip url = url)
    (ht : title ≠ "") (hu : url ≠ "")
    (hfresh : ∀ p ∈ data, pyStrip p.2 ≠ url)
    (hclean : ∀ p ∈ data, pyStrip p.1 = p.1 ∧ pyStrip p.2 = p.2 ∧ p.1 ≠ "" ∧ p.2 ≠ "") :
    (Journey.save_entry entry now uuids (some (.jsonList xs)) =
        Journey.write_data (xs ++ [entry]) ∧
      (Journey.load_data now uuids
          (Journey.save_entry entry now uuids (some (.jsonList xs)))).1 =
        xs ++ [entry]) ∧
    (RM.add_link data fs title url =
        (data ++ [(title, url)], RM.saveFile (data ++ [(title, url)])) ∧
      RM.load (RM.saveFile (data ++ [(title, url)])) = data ++ [(title, url)]) := by
  have hxsonly : ∀ e ∈ xs, Journey.entryNoUpgrade e = true :=
    fun e he => hxs e (List.mem_append.mpr (.inl he))
  have hload := Journey.load_data_noop now uuids xs hxsonly
  constructor
  · constructor
    · simp only [Journey.save_entry, hload]
    · simp only [Journey.save_entry, hload]
      exact congrArg Prod.fst (Journey.load_data_noop now uuids (xs ++ [entry]) hxs)
  · constructor
    · rw [RM.add_link]
      rw [if_neg (by simp [hts, hus, ht, hu])]
      rw [hts, hus, RM.updateOrAppend_of_fresh title url data hfresh]
    · refine RM.load_saveFile (data ++ [(title, url)]) ?_
      intro p hp
      rcases List.mem_append.mp hp with hp | hp
      · exact hclean p hp
      · rcases List.mem_singleton.mp hp with rfl
        exact ⟨hts, hus, ht, hu⟩

/-- C4 witness: appending a fresh link and a fresh journey entry. -/
theorem C4_witness :
    (Journey.save_entry
        (JValue.dict
          [("date", .scalar (.str "2024-02-02")), ("id", .scalar (.str "b")),
           ("created_at", .scalar (.str "c")), ("updated_at", .scalar (.str "t"))])
        "T" (fun _ => "u")
        (some (.jsonList
          [JValue.dict
            [("date", .scalar (.str "2024-01-01")), ("id", .scalar (.str "a")),
             ("created_at", .scalar (.str "c")), ("updated_at", .scalar (.str "t"))]])) =
       Journey.write_data
         ([JValue.dict
            [("date", .scalar (.str "2024-01-01")), ("id", .scalar (.str "a")),
             ("created_at", .scalar (.str "c")), ("updated_at", .scalar (.str "t"))]] ++
          [JValue.dict
            [("date", .scalar (.str "2024-02-02")), ("id", .scalar (.str "b")),
             ("created_at", .scalar (.str "c")), ("updated_at", .scalar (.str "t"))]]) ∧
      (Journey.load_data "T" (fun _ => "u")
          (Journey.save_entry
            (JValue.dict
              [("date", .scalar (.str "2024-02-02")), ("id", .scalar (.str "b")),
               ("created_at", .scalar (.str "c")), ("updated_at", .scalar (.str "t"))])
            "T" (fun _ => "u")
            (some (.jsonList
              [JValue.dict
                [("date", .scalar (.str "2024-01-01")), ("id", .scalar (.str "a")),
                 ("created_at", .scalar (.str "c")), ("updated_at", .scalar (.str "t"))]])))).1 =
        [JValue.dict
          [("date", .scalar (.str "2024-01-01")), ("id", .scalar (.str "a")),
           ("created_at", .scalar (.str "c")), ("updated_at", .scalar (.str "t"))]] ++
        [JValue.dict
          [("date", .scalar (.str "2024-02-02")), ("id", .scalar (.str "b")),
           ("created_at", .scalar (.str "c")), ("updated_at", .scalar (.str "t"))]]) ∧
    (RM.add_link [("a", "u1")] (RM.saveFile [("a", "u1")]) "b" "u2"
        = ([("a", "u1")] ++ [("b", "u2")],
           RM.saveFile ([("a", "u1")] ++ [("b", "u2")])) ∧
      RM.load (RM.saveFile ([("a", "u1")] ++ [("b", "u2")]))
        = [("a", "u1")] ++ [("b", "u2")]) :=
  C4_amended "T" (fun _ => "u")
    (JValue.dict
      [("date", .scalar (.str "2024-02-02")), ("id", .scalar (.str "b")),
       ("created_at", .scalar (.str "c")), ("updated_at", .scalar (.str "t"))])
    [JValue.dict
      [("date", .scalar (.str "2024-01-01")), ("id", .scalar (.str "a")),
       ("created_at", .scalar (.str "c")), ("updated_at", .scalar (.str "t"))]]
    [("a", "u1")] (RM.saveFile [("a", "u1")]) "b" "u2"
    (by decide) (by decide) (by decide) (by decide) (by decide) (by decide)
    (by decide)

namespace JJ

theorem findIdxFrom_none (d : String) (xs : List JournalEntry) :
    ∀ n, findIdxFrom d xs n = none → ∀ x ∈ xs, (x.entry_date == d) = false := by
  induction xs with
  | nil => intro n _ x hx; simp at hx
  | cons e rest ih =>
    intro n h x hx
    by_cases hm : e.entry_date == d
    · rw [findIdxFrom, if_pos hm] at h
      exact absurd h (by simp)
    · rw [findIdxFrom, if_neg hm] at h
      rcases List.mem_cons.mp hx with rfl | hx
      · exact Bool.eq_false_iff.mpr hm
      · exact ih (n + 1) h x hx

end JJ

/-- C8 counterexample: `save_entry` appends with no dedupe, so saving an entry
whose date is already stored leaves two records with the same natural key. -/
theorem C8_counterexample :
    Journey.save_entry
        (JValue.dict
          [("date", .scalar (.str "2024-01-01")), ("id", .scalar (.str "a")),
           ("created_at", .scalar (.str "c")), ("updated_at", .scalar (.str "t"))])
        "T" (fun _ => "u")
        (some (.jsonList
          [JValue.dict
            [("date", .scalar (.str "2024-01-01")), ("id", .scalar (.str "a")),
             ("created_at", .scalar (.str "c")), ("updated_at", .scalar (.str "t"))]]))
      = Journey.write_data
          [JValue.dict
            [("date", .scalar (.str "2024-01-01")), ("id", .scalar (.str "a")),
             ("created_at", .scalar (.str "c")), ("updated_at", .scalar (.str "t"))],
           JValue.dict
            [("date", .scalar (.str "2024-01-01")), ("id", .scalar (.str "a")),
             ("created_at", .scalar (.str "c")), ("updated_at", .scalar (.str "t"))]]
    ∧ List.countP (Journey.dateMatch "2024-01-01")
        [JValue.dict
          [("date", .scalar (.str "2024-01-01")), ("id", .scalar (.str "a")),
           ("created_at", .scalar (.str "c")), ("updated_at", .scalar (.str "t"))],
         JValue.dict
          [("date", .scalar (.str "2024-01-01")), ("id", .scalar (.str "a")),
           ("created_at", .scalar (.str "c")), ("updated_at", .scalar (.str "t"))]]
      = 2 := by
  decide

/-- C8 amended: the at-most-one-record-per-date invariant is preserved by
`upsert_entry` (for a schema-complete store and an entry whose stored date
equals the stripped key), by `delete_entry_by_date`, and by the journal's
`add_entry`; `save_entry` (documented "no dedupe") does not preserve it (see
the counterexample). -/
theorem C8_amended (now : String) (uuids : Nat → String)
    (entry : List (String × JField)) (iso : String) (xs : List JValue)
    (hok : ∀ e ∈ xs, Journey.entryOk e = true)
    (hdate : pyGet entry "date" = some (.scalar (.str iso)))
    (hstrip : pyStrip iso = iso) (hne : iso ≠ "")
    (huniq : Journey.uniqueDates xs) :
    (∀ b ys, Journey.upsert_entry entry now uuids (some (.jsonList xs)) =
        .ok (b, Journey.write_data ys) → Journey.uniqueDates ys) ∧
    (∀ iso2 b ys,
      Journey.delete_entry_by_date iso2 now uuids (some (.jsonList xs)) =
        .ok (b, Journey.write_data ys) → Journey.uniqueDates ys) ∧
    (∀ (entries : List JJ.JournalEntry) (e : JJ.JournalEntry) (confirm : Bool),
      JJ.uniqueJJ entries → JJ.uniqueJJ (JJ.add_entry entries e confirm)) := by
  have hiso : Journey.upsertIso entry = .ok iso := by
    simp [Journey.upsertIso, hdate, hstrip, hne]
  have hload := Journey.load_data_noop now uuids xs
    (fun e he => Journey.entryOk_noUpgrade e (hok e he))
  have hdicts : ∀ e ∈ xs, ∃ k, e = JValue.dict k :=
    fun e he => Journey.entryOk_dict e (hok e he)
  refine ⟨?_, ?_, ?_⟩
  · intro b ys hys
    rcases Journey.findDateIdx_total iso xs hdicts 0 with ⟨i, hi⟩ | ⟨hn, hall⟩
    · have heq : Journey.upsert_entry entry now uuids (some (.jsonList xs)) =
          .ok (true, Journey.write_data (xs.set i (.dict entry))) := by
        simp only [Journey.upsert_entry, hiso, hload, hi]
      rw [heq] at hys
      simp only [Journey.write_data, Except.ok.injEq, Prod.mk.injEq,
        Option.some.injEq, FileContent.jsonList.injEq] at hys
      obtain ⟨-, hy⟩ := hys
      subst hy
      obtain ⟨-, hrep⟩ :=
        Journey.findDateIdx_set_replaceFirst iso (.dict entry) xs 0 i hi
      rw [Nat.sub_zero] at hrep
      intro iso2
      rw [hrep, Journey.countP_replaceFirst iso entry hdate xs iso2]
      exact huniq iso2
    · have heq : Journey.upsert_entry entry now uuids (some (.jsonList xs)) =
          .ok (false, Journey.write_data (xs ++ [.dict entry])) := by
        simp only [Journey.upsert_entry, hiso, hload, hn]
      rw [heq] at hys
      simp only [Journey.write_data, Except.ok.injEq, Prod.mk.injEq,
        Option.some.injEq, FileContent.jsonList.injEq] at hys
      obtain ⟨-, hy⟩ := hys
      subst hy
      intro iso2
      rw [List.countP_append, List.countP_cons, List.countP_nil,
        Journey.dateMatch_congr iso iso2 entry hdate]
      by_cases hii : iso = iso2
      · subst hii
        have hz : xs.countP (Journey.dateMatch iso) = 0 :=
          List.countP_eq_zero.mpr (fun e he => by simp [hall e he])
        simp [hz]
      · have h1 := huniq iso2
        simp [hii]
        omega
  · intro iso2 b ys hys
    have hkeep := Journey.keepOtherDates_eq_filter iso2 xs hdicts
    by_cases hlen :
        (xs.filter (fun e => !Journey.dateMatch iso2 e)).length = xs.length
    · have heq : Journey.delete_entry_by_date iso2 now uuids
          (some (.jsonList xs)) = .ok (false, some (.jsonList xs)) := by
        simp only [Journey.delete_entry_by_date, hload, hkeep, if_pos hlen]
      rw [heq] at hys
      simp only [Journey.write_data, Except.ok.injEq, Prod.mk.injEq,
        Option.some.injEq, FileContent.jsonList.injEq] at hys
      obtain ⟨-, hy⟩ := hys
      subst hy
      exact huniq
    · have heq : Journey.delete_entry_by_date iso2 now uuids
          (some (.jsonList xs)) =
          .ok (true, Journey.write_data
            (xs.filter (fun e => !Journey.dateMatch iso2 e))) := by
        simp only [Journey.delete_entry_by_date, hload, hkeep, if_neg hlen]
      rw [heq] at hys
      simp only [Journey.write_data, Except.ok.injEq, Prod.mk.injEq,
        Option.some.injEq, FileContent.jsonList.injEq] at hys
      obtain ⟨-, hy⟩ := hys
      subst hy
      intro iso3
      exact le_trans
        ((List.filter_sublist xs).countP_le (Journey.dateMatch iso3))
        (huniq iso3)
  · intro entries e confirm hJ
    by_cases hg : e.mood == "" && e.notes == ""
    · have heq : JJ.add_entry entries e confirm = entries := by
        rw [JJ.add_entry, if_pos hg]
      rw [heq]
      exact hJ
    · cases hf : JJ.find_entry_index_by_date entries e.entry_date with
      | some i =>
        cases confirm with
        | false =>
          have heq : JJ.add_entry entries e false = entries := by
            rw [JJ.add_entry, if_neg hg, hf]
            rfl
          rw [heq]
          exact hJ
        | true =>
          have heq : JJ.add_entry entries e true =
              JJ.sort_entries (entries.set i e) := by
            rw [JJ.add_entry, if_neg hg, hf]
            rfl
          rw [heq]
          intro d2
          rw [JJ.countP_sort_entries]
          obtain ⟨-, hrep⟩ :=
            JJ.findIdxFrom_set_replaceFirstJJ e.entry_date e entries 0 i hf
          rw [Nat.sub_zero] at hrep
          rw [hrep, JJ.countP_replaceFirstJJ e.entry_date e rfl entries d2]
          exact hJ d2
      | none =>
        have heq : JJ.add_entry entries e confirm =
            JJ.sort_entries (entries ++ [e]) := by
          rw [JJ.add_entry, if_neg hg, hf]
        rw [heq]
        intro d2
        rw [JJ.countP_sort_entries]
        rw [List.countP_append, List.countP_cons, List.countP_nil]
        have hall := JJ.findIdxFrom_none e.entry_date entries 0 hf
        by_cases hd : e.entry_date = d2
        · have hz : entries.countP (fun x => x.entry_date == d2) = 0 :=
            List.countP_eq_zero.mpr (fun x hx => by
              have := hall x hx
              rw [← hd]
              simp [this])
          simp [hz, hd]
        · have h1 := hJ d2
          simp [hd]
          omega

/-- C8 witness: upserting a fresh date into a one-record schema-complete store
keeps at most one record per date. -/
theorem C8_witness :
    Journey.uniqueDates
      [JValue.dict
        [("date", .scalar (.str "2024-01-01")), ("id", .scalar (.str "a")),
         ("created_at", .scalar (.str "c")), ("updated_at", .scalar (.str "t"))],
       JValue.dict
        [("date", .scalar (.str "2024-02-02")), ("id", .scalar (.str "b")),
         ("created_at", .scalar (.str "c")), ("updated_at", .scalar (.str "t"))]] :=
  (C8_amended "T" (fun _ => "u")
    [("date", .scalar (.str "2024-02-02")), ("id", .scalar (.str "b")),
     ("created_at", .scalar (.str "c")), ("updated_at", .scalar (.str "t"))]
    "2024-02-02"
    [JValue.dict
      [("date", .scalar (.str "2024-01-01")), ("id", .scalar (.str "a")),
       ("created_at", .scalar (.str "c")), ("updated_at", .scalar (.str "t"))]]
    (by decide) (by decide) (by decide) (by decide)
    (fun iso => by
      rw [List.countP_cons, List.countP_nil]
      split <;> simp)).1 false
    [JValue.dict
      [("date", .scalar (.str "2024-01-01")), ("id", .scalar (.str "a")),
       ("created_at", .scalar (.str "c")), ("updated_at", .scalar (.str "t"))],
     JValue.dict
      [("date", .scalar (.str "2024-02-02")), ("id", .scalar (.str "b")),
       ("created_at", .scalar (.str "c")), ("updated_at", .scalar (.str "t"))]]
    (by decide)

/-- C9 counterexample: the rebuilt list is sorted by (pinned, lowercased
title), not in the records' original relative order; and a query can match
across the space-joined field boundary, keeping a record although it matches
none of the five fields individually. -/
theorem C9_counterexample :
    Tracker.rebuild_list
        [⟨"1", "b", "", "General", "", "x", false⟩,
         ⟨"2", "a", "", "General", "", "x", false⟩] "x" "All categories"
      = [⟨"2", "a", "", "General", "", "x", false⟩,
         ⟨"1", "b", "", "General", "", "x", false⟩]
    ∧ ([⟨"2", "a", "", "General", "", "x", false⟩,
        ⟨"1", "b", "", "General", "", "x", false⟩] : List Tracker.Resource)
      ≠ [⟨"1", "b", "", "General", "", "x", false⟩,
         ⟨"2", "a", "", "General", "", "x", false⟩]
    ∧ Tracker.matches_filter "b c" "All categories"
        ⟨"1", "ab", "cd", "General", "", "", false⟩ = true
    ∧ hasSubStr (lowerStr (pyStrip "b c")) (lowerStr "ab") = false
    ∧ hasSubStr (lowerStr (pyStrip "b c")) (lowerStr "cd") = false
    ∧ hasSubStr (lowerStr (pyStrip "b c")) (lowerStr "General") = false
    ∧ hasSubStr (lowerStr (pyStrip "b c")) (lowerStr "") = false := by
  decide

/-- C9 amended: with the category filter off, the rebuilt list is a
permutation of the records whose space-joined lowercased fields contain the
stripped lowercased query (so any record with a single-field match is kept,
but cross-boundary matches are kept too), and it is ordered pinned-first then
by lowercased title — not in original relative order (see the
counterexample). -/
theorem C9_amended (rs : List Tracker.Resource) (q : String) :
    (Tracker.rebuild_list rs q "All categories").Perm
        (rs.filter (Tracker.matches_filter q "All categories")) ∧
    (Tracker.rebuild_list rs q "All categories").Pairwise
        (fun a b => Tracker.resLt b a = false) ∧
    (∀ r : Tracker.Resource, Tracker.matches_filter q "All categories" r =
        (lowerStr (pyStrip q) == "" ||
          hasSubStr (lowerStr (pyStrip q)) (lowerStr (Tracker.joined r)))) ∧
    (∀ r : Tracker.Resource,
      hasSubStr (lowerStr (pyStrip q)) (lowerStr r.title) = true →
        Tracker.matches_filter q "All categories" r = true) := by
  have hchar : ∀ r : Tracker.Resource,
      Tracker.matches_filter q "All categories" r =
        (lowerStr (pyStrip q) == "" ||
          hasSubStr (lowerStr (pyStrip q)) (lowerStr (Tracker.joined r))) := by
    intro r
    rw [Tracker.matches_filter]
    rw [if_neg (by simp)]
    by_cases hq : lowerStr (pyStrip q) == ""
    · simp [hq]
    · simp [hq]
  refine ⟨?_, ?_, hchar, ?_⟩
  · exact insSort_perm _ _
  · exact insSort_pairwise Tracker.resLt Tracker.resLt_negtrans
      Tracker.resLt_asymm _
  · intro r hr
    rw [hchar r]
    have hj : hasSubStr (lowerStr (pyStrip q)) (lowerStr (Tracker.joined r)) = true := by
      rw [Tracker.joined]
      exact hasSubStr_lower_append_right _ _ _
        (hasSubStr_lower_append_right _ _ _
          (hasSubStr_lower_append_right _ _ _
            (hasSubStr_lower_append_right _ _ _
              (hasSubStr_lower_append_right _ _ _
                (hasSubStr_lower_append_right _ _ _
                  (hasSubStr_lower_append_right _ _ _
                    (hasSubStr_lower_append_right _ _ _ hr)))))))
    simp [hj]

/-- C9 witness: a record whose title contains the query is kept. -/
theorem C9_witness :
    Tracker.matches_filter "ab" "All categories"
      ⟨"1", "xaby", "", "General", "", "", false⟩ = true :=
  (C9_amended [] "ab").2.2.2 ⟨"1", "xaby", "", "General", "", "", false⟩
    (by decide)
